import Mathlib

/-!
Verification of the retrieval-augmented Q&A service (`src/app.js`).

Strings of the JavaScript source are modelled as `List Char` (for the
chunking algorithm, which manipulates indices) or as Lean `String` (for
request/response payload texts).  The JavaScript built-ins `slice`,
`lastIndexOf`, `trim` and `Math.max` are modelled mathematically; the
repository's own code (`chunkText`, `getEmbeddings`, the prompt builder
and the four request handlers) is translated statement by statement.
External effects (file parsing, the embedding service, the vector store,
the completion service, `fs.unlink`) are passed in as explicit outcome
parameters, so every handler is a pure function of its effect outcomes.
-/

namespace SlackBot

/-- The set of characters removed by JavaScript `String.prototype.trim`
(ECMAScript WhiteSpace and LineTerminator code points). -/
def isJsWhitespace (c : Char) : Bool :=
  c == '\t' || c == '\n' || c.toNat == 0x0b || c.toNat == 0x0c || c == '\r' || c == ' ' ||
  c.toNat == 0xa0 || c.toNat == 0x1680 || (0x2000 ≤ c.toNat && c.toNat ≤ 0x200a) ||
  c.toNat == 0x2028 || c.toNat == 0x2029 || c.toNat == 0x202f || c.toNat == 0x205f ||
  c.toNat == 0x3000 || c.toNat == 0xfeff

/-- JavaScript `String.prototype.trim`: strip whitespace from both ends. -/
def jsTrim (l : List Char) : List Char :=
  ((l.dropWhile isJsWhitespace).reverse.dropWhile isJsWhitespace).reverse

/-- JavaScript `String.prototype.slice` restricted to nonnegative indices:
the characters at positions `[a, min b (length)) `. -/
def jsSlice (l : List Char) (a b : Nat) : List Char :=
  (l.take b).drop a

/-- Index of the last element satisfying `p`, or `-1` when there is none —
the semantics of JavaScript `String.prototype.lastIndexOf` (generalised to
a predicate so that the three `lastIndexOf` calls of `chunkText` can be
combined). -/
def lastIdxP (p : Char → Bool) : List Char → Int
  | [] => -1
  | a :: as =>
    if lastIdxP p as = -1 then (if p a then 0 else -1) else lastIdxP p as + 1

/-- JavaScript `chunk.lastIndexOf(c)` for a single-character needle. -/
def jsLastIndexOf (l : List Char) (c : Char) : Int :=
  lastIdxP (fun a => a == c) l

/-- `chunkText`'s chunk size constant (`src/app.js` line 104). -/
def chunkSize : Nat := 1000

/-- `chunkText`'s overlap constant (`src/app.js` line 105). -/
def overlap : Nat := 200

/-- `c == '.' || c == '?' || c == '!'` — a sentence-terminating character. -/
def isTerm (c : Char) : Bool :=
  c == '.' || (c == '?' || c == '!')

/-- `Math.max(lastPeriod, Math.max(lastQuestion, lastExclamation))` over the
three `lastIndexOf` results of `chunkText` (`src/app.js` lines 115-118). -/
def lastBreak3 (l : List Char) : Int :=
  max (jsLastIndexOf l '.') (max (jsLastIndexOf l '?') (jsLastIndexOf l '!'))

/-- The `endIndex` value computed by one iteration of `chunkText`'s while
loop (`src/app.js` lines 110-124): the raw cut `startIndex + chunkSize`,
moved back to just after the last sentence terminator when one occurs at a
(0-based, chunk-relative) index strictly greater than `chunkSize - overlap`
and the raw window does not already reach the end of the text. -/
def stepEnd (text : List Char) (startIndex : Nat) : Nat :=
  let endIndex := startIndex + chunkSize
  let chunk := jsSlice text startIndex endIndex
  if endIndex < text.length then
    let lastBreak := lastBreak3 chunk
    if lastBreak ≠ -1 ∧ (chunkSize : Int) - (overlap : Int) < lastBreak then
      startIndex + lastBreak.toNat + 1
    else endIndex
  else endIndex

/-- `startIndex = endIndex - overlap` (`src/app.js` line 127). -/
def nextStart (text : List Char) (startIndex : Nat) : Nat :=
  stepEnd text startIndex - overlap

/-- The while loop of `chunkText` (`src/app.js` lines 109-128), written with
explicit fuel; `none` means the fuel ran out before the loop finished. -/
def chunkLoop (text : List Char) : Nat → Nat → Option (List (List Char))
  | 0, startIndex => if startIndex < text.length then none else some []
  | fuel + 1, startIndex =>
    if startIndex < text.length then
      match chunkLoop text fuel (nextStart text startIndex) with
      | none => none
      | some rest => some (jsTrim (jsSlice text startIndex (stepEnd text startIndex)) :: rest)
    else some []

/-- `chunkText` (`src/app.js` lines 103-131).  `text.length + 1` units of
fuel always suffice (proved below), so the `getD` default is never used. -/
def chunkText (text : List Char) : List (List Char) :=
  (chunkLoop text (text.length + 1) 0).getD []

/-! Basic bounds for `lastIdxP`. -/

theorem lastIdxP_ge (p : Char → Bool) (l : List Char) : -1 ≤ lastIdxP p l := by
  induction l with
  | nil => simp [lastIdxP]
  | cons a as ih =>
    simp only [lastIdxP]
    split_ifs <;> omega

theorem lastIdxP_lt (p : Char → Bool) (l : List Char) :
    lastIdxP p l < (l.length : Int) := by
  induction l with
  | nil => simp [lastIdxP]
  | cons a as ih =>
    simp only [lastIdxP, List.length_cons]
    push_cast
    split_ifs <;> omega

theorem lastBreak3_ge (l : List Char) : -1 ≤ lastBreak3 l := by
  have h := lastIdxP_ge (fun a => a == '.') l
  simp only [lastBreak3, jsLastIndexOf]
  omega

theorem lastBreak3_lt (l : List Char) : lastBreak3 l < (l.length : Int) := by
  have h1 := lastIdxP_lt (fun a => a == '.') l
  have h2 := lastIdxP_lt (fun a => a == '?') l
  have h3 := lastIdxP_lt (fun a => a == '!') l
  simp only [lastBreak3, jsLastIndexOf]
  omega

/-! Window bounds for `stepEnd`. -/

theorem jsSlice_length (l : List Char) (a b : Nat) :
    (jsSlice l a b).length = min b l.length - a := by
  simp [jsSlice]

theorem stepEnd_lower (text : List Char) (s : Nat) :
    s + (chunkSize - overlap) + overlap + 2 ≤ stepEnd text s + overlap := by
  unfold stepEnd
  dsimp only
  split
  · split
    · rename_i h hcond
      have := hcond.2
      simp only [chunkSize, overlap] at *
      omega
    · simp only [chunkSize, overlap]
      omega
  · simp only [chunkSize, overlap]
    omega

theorem stepEnd_ge (text : List Char) (s : Nat) : s + 802 ≤ stepEnd text s := by
  have := stepEnd_lower text s
  simp only [chunkSize, overlap] at this
  omega

theorem stepEnd_le (text : List Char) (s : Nat) : stepEnd text s ≤ s + chunkSize := by
  unfold stepEnd
  dsimp only
  split
  · split
    · rename_i h hcond
      have hlt := lastBreak3_lt (jsSlice text s (s + chunkSize))
      have hlen : (jsSlice text s (s + chunkSize)).length = min (s + chunkSize) text.length - s :=
        jsSlice_length text s (s + chunkSize)
      simp only [chunkSize, overlap] at *
      omega
    · omega
  · omega

theorem nextStart_gt (text : List Char) (s : Nat) : s < nextStart text s := by
  have := stepEnd_ge text s
  simp only [nextStart, overlap]
  omega

/-! Termination: `text.length + 1` units of fuel always complete the loop. -/

theorem chunkLoop_stop (text : List Char) (fuel s : Nat) (h : ¬ s < text.length) :
    chunkLoop text fuel s = some [] := by
  cases fuel with
  | zero => simp [chunkLoop, h]
  | succ n => simp [chunkLoop, h]

theorem chunkLoop_isSome (text : List Char) :
    ∀ fuel s, text.length ≤ s + fuel → (chunkLoop text fuel s).isSome = true := by
  intro fuel
  induction fuel with
  | zero =>
    intro s h
    have : ¬ s < text.length := by omega
    simp [chunkLoop, this]
  | succ n ih =>
    intro s h
    by_cases hs : s < text.length
    · have hnext := nextStart_gt text s
      have : (chunkLoop text n (nextStart text s)).isSome = true := by
        apply ih
        omega
      simp only [chunkLoop, if_pos hs]
      cases hrec : chunkLoop text n (nextStart text s) with
      | none => rw [hrec] at this; simp at this
      | some rest => simp
    · simp [chunkLoop, hs]

/-! Characterisation of `lastIdxP` as "index of the last occurrence". -/

theorem lastIdxP_or (p q : Char → Bool) (l : List Char) :
    lastIdxP (fun a => p a || q a) l = max (lastIdxP p l) (lastIdxP q l) := by
  induction l with
  | nil => simp [lastIdxP]
  | cons a as ih =>
    have hp := lastIdxP_ge p as
    have hq := lastIdxP_ge q as
    simp only [lastIdxP, ih]
    rcases Bool.eq_false_or_eq_true (p a) with hpa | hpa <;>
      rcases Bool.eq_false_or_eq_true (q a) with hqa | hqa <;>
      simp only [hpa, hqa, Bool.false_or, Bool.or_false, Bool.or_self] <;>
      split_ifs <;> omega

theorem lastIdxP_eq_neg_one (p : Char → Bool) (l : List Char) :
    lastIdxP p l = -1 ↔ ∀ c ∈ l, p c = false := by
  induction l with
  | nil => simp [lastIdxP]
  | cons a as ih =>
    have hge := lastIdxP_ge p as
    simp only [lastIdxP, List.mem_cons]
    constructor
    · intro h
      by_cases h1 : lastIdxP p as = -1
      · rw [if_pos h1] at h
        by_cases h2 : p a = true
        · rw [if_pos h2] at h
          exact absurd h (by norm_num)
        · intro c hc
          rcases hc with rfl | hc
          · simpa using h2
          · exact ih.mp h1 c hc
      · rw [if_neg h1] at h
        exact absurd h (by omega)
    · intro h
      have h1 : lastIdxP p as = -1 := ih.mpr fun c hc => h c (Or.inr hc)
      have h2 : p a = false := h a (Or.inl rfl)
      simp [h1, h2]

theorem lastIdxP_eq_coe (p : Char → Bool) (l : List Char) (k : Nat)
    (hk : k < l.length) (hp : p (l.getD k ' ') = true)
    (hafter : ∀ j, j < l.length → k < j → p (l.getD j ' ') = false) :
    lastIdxP p l = (k : Int) := by
  induction l generalizing k with
  | nil => simp at hk
  | cons a as ih =>
    cases k with
    | zero =>
      have h1 : lastIdxP p as = -1 := by
        rw [lastIdxP_eq_neg_one]
        intro c hc
        obtain ⟨⟨j, hj⟩, rfl⟩ := List.mem_iff_get.mp hc
        have := hafter (j + 1) (by simpa using Nat.succ_lt_succ hj) (Nat.succ_pos j)
        rw [List.getD_cons_succ, List.getD_eq_getElem _ _ hj] at this
        simpa [List.get_eq_getElem] using this
      rw [List.getD_cons_zero] at hp
      simp [lastIdxP, h1, hp]
    | succ k' =>
      have hk' : k' < as.length := by simpa using hk
      rw [List.getD_cons_succ] at hp
      have hrec : lastIdxP p as = (k' : Int) := by
        refine ih k' hk' hp fun j hj hkj => ?_
        have := hafter (j + 1) (by simpa using Nat.succ_lt_succ hj) (by omega)
        rwa [List.getD_cons_succ] at this
      have hne : ¬ ((k' : Int) = -1) := by omega
      simp only [lastIdxP, hrec, if_neg hne]
      push_cast
      ring

theorem lastIdxP_spec_fwd (p : Char → Bool) (l : List Char) :
    lastIdxP p l = -1 ∨
      ∃ k : Nat, lastIdxP p l = (k : Int) ∧ k < l.length ∧ p (l.getD k ' ') = true := by
  induction l with
  | nil => left; simp [lastIdxP]
  | cons a as ih =>
    simp only [lastIdxP]
    split_ifs with h1 h2
    · right
      exact ⟨0, by simp, by simp, by simpa using h2⟩
    · left; rfl
    · rcases ih with h | ⟨k, hkval, hklen, hkp⟩
      · exact absurd h h1
      · right
        refine ⟨k + 1, ?_, by simpa using Nat.succ_lt_succ hklen, ?_⟩
        · rw [hkval]; push_cast; ring
        · simpa [List.getD_cons_succ] using hkp

/-- The max-of-three-`lastIndexOf` computation of `chunkText` equals the index
of the last sentence-terminating character. -/
theorem lastBreak3_eq_lastIdxP (l : List Char) :
    lastBreak3 l = lastIdxP isTerm l := by
  have h1 := lastIdxP_or (fun a => a == '?') (fun a => a == '!') l
  have h2 := lastIdxP_or (fun a => a == '.') (fun a => a == '?' || a == '!') l
  have hiso : lastIdxP isTerm l = lastIdxP (fun a => a == '.' || (a == '?' || a == '!')) l := rfl
  simp only [lastBreak3, jsLastIndexOf]
  rw [hiso, h2, h1]

/-! How `stepEnd` behaves as a function of the last sentence terminator. -/

theorem stepEnd_of_break_le (text : List Char) (s : Nat)
    (hwin : s + chunkSize < text.length)
    (hle : lastIdxP isTerm (jsSlice text s (s + chunkSize)) ≤ (chunkSize : Int) - (overlap : Int)) :
    stepEnd text s = s + chunkSize := by
  unfold stepEnd
  dsimp only
  rw [if_pos hwin, lastBreak3_eq_lastIdxP, if_neg]
  intro hcond
  omega

theorem stepEnd_of_break_gt (text : List Char) (s k : Nat)
    (hwin : s + chunkSize < text.length)
    (hk : lastIdxP isTerm (jsSlice text s (s + chunkSize)) = (k : Int))
    (hgt : chunkSize - overlap < k) :
    stepEnd text s = s + k + 1 := by
  have hco : overlap ≤ chunkSize := by simp [chunkSize, overlap]
  unfold stepEnd
  dsimp only
  rw [if_pos hwin, lastBreak3_eq_lastIdxP, hk, if_pos (by constructor <;> omega)]
  simp

/-! Concrete test vectors: texts of shape `replicate m 'a' ++ '.' :: replicate n 'a'`,
whose only sentence terminator sits at index `m`. -/

theorem repDot_length (m n : Nat) :
    (List.replicate m 'a' ++ '.' :: List.replicate n 'a').length = m + n + 1 := by
  simp
  omega

theorem repDot_window (m n : Nat) (hm : m < chunkSize) (hn : chunkSize ≤ m + 1 + n) :
    jsSlice (List.replicate m 'a' ++ '.' :: List.replicate n 'a') 0 chunkSize
      = List.replicate m 'a' ++ '.' :: List.replicate (chunkSize - m - 1) 'a' := by
  simp only [jsSlice, List.drop_zero]
  rw [List.take_append_eq_append_take, List.take_replicate]
  have h1 : min chunkSize m = m := by omega
  have h2 : chunkSize - (List.replicate m 'a').length = (chunkSize - m - 1) + 1 := by
    simp only [List.length_replicate]
    omega
  rw [h1, h2, List.take_succ_cons, List.take_replicate]
  have h3 : min (chunkSize - m - 1) n = chunkSize - m - 1 := by omega
  rw [h3]

theorem repDot_getD_dot (m n : Nat) :
    (List.replicate m 'a' ++ '.' :: List.replicate n 'a').getD m ' ' = '.' := by
  rw [List.getD_append_right _ _ _ _ (by simp)]
  simp

theorem repDot_isTerm_after (m n j : Nat) (h1 : m < j) :
    isTerm ((List.replicate m 'a' ++ '.' :: List.replicate n 'a').getD j ' ') = false := by
  rw [List.getD_append_right _ _ _ _ (by simp; omega)]
  have h2 : j - (List.replicate m 'a').length = (j - m - 1) + 1 := by
    simp only [List.length_replicate]
    omega
  rw [h2, List.getD_cons_succ]
  by_cases h3 : j - m - 1 < n
  · rw [List.getD_eq_getElem _ _ (by simpa using h3)]
    simp [isTerm]
  · rw [List.getD_eq_default _ _ (by simpa using h3)]
    simp [isTerm]

theorem repDot_lastIdx (m n : Nat) :
    lastIdxP isTerm (List.replicate m 'a' ++ '.' :: List.replicate n 'a') = (m : Int) := by
  apply lastIdxP_eq_coe
  · rw [repDot_length]
    omega
  · rw [repDot_getD_dot]
    rfl
  · intro j _ hmj
    exact repDot_isTerm_after m n j hmj

/-! Chunk-length bound. -/

theorem length_dropWhile_le (p : Char → Bool) (l : List Char) :
    (l.dropWhile p).length ≤ l.length :=
  (List.dropWhile_suffix p).length_le

theorem jsTrim_length_le (l : List Char) : (jsTrim l).length ≤ l.length := by
  unfold jsTrim
  calc (((l.dropWhile isJsWhitespace).reverse.dropWhile isJsWhitespace).reverse).length
      = ((l.dropWhile isJsWhitespace).reverse.dropWhile isJsWhitespace).length := by simp
    _ ≤ (l.dropWhile isJsWhitespace).reverse.length := length_dropWhile_le _ _
    _ = (l.dropWhile isJsWhitespace).length := by simp
    _ ≤ l.length := length_dropWhile_le _ _

theorem chunkLoop_chunk_length (text : List Char) :
    ∀ fuel s l, chunkLoop text fuel s = some l → ∀ c ∈ l, c.length ≤ chunkSize := by
  intro fuel
  induction fuel with
  | zero =>
    intro s l h c hc
    simp only [chunkLoop] at h
    split_ifs at h
    rw [Option.some_inj] at h
    subst h
    simp at hc
  | succ n ih =>
    intro s l h c hc
    simp only [chunkLoop] at h
    split_ifs at h with hs
    · cases hrec : chunkLoop text n (nextStart text s) with
      | none => rw [hrec] at h; simp at h
      | some rest =>
        rw [hrec] at h
        simp only [Option.some_inj] at h
        subst h
        rcases List.mem_cons.mp hc with rfl | hc'
        · have h1 := jsTrim_length_le (jsSlice text s (stepEnd text s))
          have h2 := jsSlice_length text s (stepEnd text s)
          have h3 := stepEnd_le text s
          omega
        · exact ih (nextStart text s) rest hrec c hc'
    · rw [Option.some_inj] at h
      subst h
      simp at hc

/-! The claim theorems about the chunker. -/

/-- C8: with the fixed parameters `chunkSize = 1000`, `overlap = 200` the
chunking loop terminates on every input: the window start strictly increases
on each iteration (`nextStart`), `text.length + 1` units of fuel never run
out, and the loop stops (returning its accumulated chunks) as soon as the
window start reaches or exceeds the text length. -/
theorem chunkText_terminates (text : List Char) :
    (∀ s, s < nextStart text s)
    ∧ (chunkLoop text (text.length + 1) 0).isSome = true
    ∧ (∀ fuel s, text.length ≤ s → chunkLoop text fuel s = some []) :=
  ⟨fun s => nextStart_gt text s,
   chunkLoop_isSome text (text.length + 1) 0 (by omega),
   fun fuel s h => chunkLoop_stop text fuel s (by omega)⟩

/-- Witness for C8 at a concrete input. -/
theorem chunkText_terminates_witness : chunkLoop ['a'] 0 2 = some [] :=
  (chunkText_terminates ['a']).2.2 0 2 (by decide)

/-- C10: every chunk produced by `chunkText` has length at most
`chunkSize = 1000`: the slice is bounded by `chunkSize` and the
sentence-boundary adjustment and trimming only ever shorten it. -/
theorem chunkText_chunk_length_le (text : List Char) (c : List Char)
    (hc : c ∈ chunkText text) : c.length ≤ chunkSize := by
  unfold chunkText at hc
  cases hloop : chunkLoop text (text.length + 1) 0 with
  | none => rw [hloop] at hc; simp at hc
  | some l =>
    rw [hloop] at hc
    exact chunkLoop_chunk_length text (text.length + 1) 0 l hloop c hc

/-- Witness for C10 at a concrete input. -/
theorem chunkText_chunk_length_le_witness : (['h', 'i'] : List Char).length ≤ chunkSize :=
  chunkText_chunk_length_le ['h', 'i'] ['h', 'i'] (by decide)

/-- C1 (amended): for every nonempty input of length at most
`chunkSize - overlap` (= 800), `chunkText` returns exactly one chunk, equal
to the whole input with leading and trailing whitespace trimmed.  (For
lengths in `(chunkSize - overlap, chunkSize]` the code emits a second,
fully-overlapped tail chunk — see the counterexample.) -/
theorem chunkText_short (text : List Char) (h0 : text ≠ [])
    (h1 : text.length ≤ chunkSize - overlap) :
    chunkText text = [jsTrim text] := by
  have hlen : 0 < text.length := List.length_pos.mpr h0
  have h1' : text.length ≤ 800 := by
    simpa [chunkSize, overlap] using h1
  have hstep : stepEnd text 0 = chunkSize := by
    unfold stepEnd
    dsimp only
    rw [if_neg (by simp only [chunkSize]; omega)]
    omega
  have hnext : nextStart text 0 = chunkSize - overlap := by
    rw [nextStart, hstep]
  have hslice : jsSlice text 0 (stepEnd text 0) = text := by
    rw [hstep]
    simp only [jsSlice, List.drop_zero]
    exact List.take_of_length_le (by simp only [chunkSize]; omega)
  unfold chunkText
  simp only [chunkLoop, if_pos hlen, hnext, hslice]
  rw [chunkLoop_stop text text.length (chunkSize - overlap)
    (by simp only [chunkSize, overlap]; omega)]
  rfl

/-- Witness for C1 at a concrete input. -/
theorem chunkText_short_witness : chunkText ['h', 'i'] = [jsTrim ['h', 'i']] :=
  chunkText_short ['h', 'i'] (by decide) (by decide)

set_option maxRecDepth 10000 in
/-- C1 counterexample: the input `replicate 900 'a'` has length at most the
chunk size (1000), yet `chunkText` returns two chunks, not one: after the
single full window the loop advances the start to `endIndex - overlap = 800`,
which is still below the length 900, so a second, fully-overlapped tail chunk
is emitted. -/
theorem chunkText_short_cex :
    (List.replicate 900 'a').length ≤ chunkSize
    ∧ (chunkText (List.replicate 900 'a')).length ≠ 1 := by
  constructor
  · simp [chunkSize]
  · decide

/-- C3 (amended): for every window not reaching the text's end, if the last
occurrence of `.`, `?` or `!` in the window lies at a chunk-relative index
strictly greater than `chunkSize - overlap` (i.e. strictly inside the last
`overlap - 1` characters, not merely in the last `overlap` characters), the
window is truncated immediately after that character; otherwise — no
terminator, or the last one at index at most `chunkSize - overlap` — the raw
fixed-size cut is kept.  The next window always starts at
`endIndex - overlap`. -/
theorem chunk_sentence_boundary (text : List Char) (s k : Nat)
    (hwin : s + chunkSize < text.length) :
    nextStart text s = stepEnd text s - overlap
    ∧ (k < chunkSize → isTerm ((jsSlice text s (s + chunkSize)).getD k ' ') = true →
        (∀ j, j < chunkSize → k < j →
          isTerm ((jsSlice text s (s + chunkSize)).getD j ' ') = false) →
        chunkSize - overlap < k →
        stepEnd text s = s + k + 1)
    ∧ ((∀ j, j < chunkSize → chunkSize - overlap < j →
          isTerm ((jsSlice text s (s + chunkSize)).getD j ' ') = false) →
        stepEnd text s = s + chunkSize) := by
  have hwl : (jsSlice text s (s + chunkSize)).length = chunkSize := by
    rw [jsSlice_length]
    omega
  have hco : overlap ≤ chunkSize := by simp [chunkSize, overlap]
  refine ⟨rfl, ?_, ?_⟩
  · intro hk hterm hafter hin
    have hlast : lastIdxP isTerm (jsSlice text s (s + chunkSize)) = (k : Int) := by
      apply lastIdxP_eq_coe
      · omega
      · exact hterm
      · intro j hj hkj
        exact hafter j (by omega) hkj
    exact stepEnd_of_break_gt text s k hwin hlast hin
  · intro hafter
    rcases lastIdxP_spec_fwd isTerm (jsSlice text s (s + chunkSize)) with
      hnone | ⟨k0, hk0, hk0len, hk0p⟩
    · apply stepEnd_of_break_le text s hwin
      rw [hnone]
      simp only [chunkSize, overlap]
      omega
    · by_cases hgt : chunkSize - overlap < k0
      · have hcontra := hafter k0 (by omega) hgt
        rw [hk0p] at hcontra
        exact Bool.noConfusion hcontra
      · apply stepEnd_of_break_le text s hwin
        rw [hk0]
        omega

/-- Witness for C3: a window whose last sentence terminator sits at relative
index 900 (strictly past `chunkSize - overlap`) is truncated right after
it. -/
theorem chunk_sentence_boundary_witness :
    stepEnd (List.replicate 900 'a' ++ '.' :: List.replicate 300 'a') 0 = 901 := by
  have hwin : 0 + chunkSize
      < (List.replicate 900 'a' ++ '.' :: List.replicate 300 'a').length := by
    rw [repDot_length]
    simp [chunkSize]
  have hwd : jsSlice (List.replicate 900 'a' ++ '.' :: List.replicate 300 'a') 0 (0 + chunkSize)
      = List.replicate 900 'a' ++ '.' :: List.replicate (chunkSize - 900 - 1) 'a' := by
    rw [Nat.zero_add]
    exact repDot_window 900 300 (by simp [chunkSize]) (by simp [chunkSize])
  have h := (chunk_sentence_boundary
    (List.replicate 900 'a' ++ '.' :: List.replicate 300 'a') 0 900 hwin).2.1
  rw [hwd] at h
  have hres := h (by simp [chunkSize]) (by rw [repDot_getD_dot]; decide)
    (fun j _ hkj => repDot_isTerm_after 900 _ j hkj)
    (by simp [chunkSize, overlap])
  omega

/-- C3 counterexample: in `replicate 800 'a' ++ '.' :: replicate 400 'a'` the
first window's last sentence terminator sits at relative index
`chunkSize - overlap = 800`, i.e. within the last `overlap` (200) characters
of the 1000-character window, yet the code's strict comparison
(`lastBreak > chunkSize - overlap`) keeps the raw fixed-size cut (endIndex
1000) instead of truncating to 801 as the claim demands. -/
theorem chunk_sentence_boundary_cex :
    0 + chunkSize < (List.replicate 800 'a' ++ '.' :: List.replicate 400 'a').length
    ∧ isTerm ((jsSlice (List.replicate 800 'a' ++ '.' :: List.replicate 400 'a') 0
        (0 + chunkSize)).getD (chunkSize - overlap) ' ') = true
    ∧ (∀ j, j < chunkSize → chunkSize - overlap < j →
        isTerm ((jsSlice (List.replicate 800 'a' ++ '.' :: List.replicate 400 'a') 0
          (0 + chunkSize)).getD j ' ') = false)
    ∧ stepEnd (List.replicate 800 'a' ++ '.' :: List.replicate 400 'a') 0 = 0 + chunkSize
    ∧ 0 + chunkSize ≠ 0 + (chunkSize - overlap) + 1 := by
  have hwd : jsSlice (List.replicate 800 'a' ++ '.' :: List.replicate 400 'a') 0 (0 + chunkSize)
      = List.replicate 800 'a' ++ '.' :: List.replicate (chunkSize - 800 - 1) 'a' := by
    rw [Nat.zero_add]
    exact repDot_window 800 400 (by simp [chunkSize]) (by simp [chunkSize])
  have hwin : 0 + chunkSize
      < (List.replicate 800 'a' ++ '.' :: List.replicate 400 'a').length := by
    rw [repDot_length]
    simp [chunkSize]
  refine ⟨hwin, ?_, ?_, ?_, ?_⟩
  · rw [hwd]
    have h800 : chunkSize - overlap = 800 := by simp [chunkSize, overlap]
    rw [h800, repDot_getD_dot]
    decide
  · intro j _ hgt
    rw [hwd]
    apply repDot_isTerm_after
    simp only [chunkSize, overlap] at hgt
    omega
  · have hle : lastIdxP isTerm
        (jsSlice (List.replicate 800 'a' ++ '.' :: List.replicate 400 'a') 0 (0 + chunkSize))
        ≤ (chunkSize : Int) - (overlap : Int) := by
      rw [hwd, repDot_lastIdx]
      simp only [chunkSize, overlap]
      omega
    exact stepEnd_of_break_le _ 0 hwin hle
  · simp [chunkSize, overlap]

/-! Models of the request handlers.  Outcomes of external calls (file
parsing, embedding service, vector store, completion service, `fs.unlink`)
are passed in explicitly; `Except.error m` stands for a thrown JavaScript
error whose `message` is `m`. -/

/-- A row returned by the `match_chunks` similarity search as used by the
handlers (`src/app.js` lines 197-209, 339-342). -/
structure ChunkHit (σ : Type) where
  content : String
  similarity : σ
  deriving DecidableEq

/-- One pass of the `getEmbeddings` for-loop (`src/app.js` lines 169-176)
against an embedding-service oracle `svc`: the outcome (embeddings in order,
or the message of the first thrown error) paired with the list of inputs
actually sent to the service, in call order. -/
def getEmbeddingsRun {α : Type} (svc : List Char → Except String α) :
    List (List Char) → Except String (List α) × List (List Char)
  | [] => (Except.ok [], [])
  | c :: cs =>
    match svc c with
    | Except.error e => (Except.error e, [c])
    | Except.ok v =>
      match getEmbeddingsRun svc cs with
      | (Except.error e, tr) => (Except.error e, c :: tr)
      | (Except.ok vs, tr) => (Except.ok (v :: vs), c :: tr)

/-- `getEmbeddings` (`src/app.js` lines 167-181): embeds every chunk,
sequentially; any failure aborts and rethrows with the
`Error generating embeddings:` prefix. -/
def getEmbeddings {α : Type} (svc : List Char → Except String α)
    (chunks : List (List Char)) : Except String (List α) :=
  match (getEmbeddingsRun svc chunks).1 with
  | Except.error e => Except.error ("Error generating embeddings: " ++ e)
  | Except.ok vs => Except.ok vs

/-- Metadata of a multer upload (`req.file`). -/
structure FileMeta where
  filename : String
  originalname : String
  deriving DecidableEq

/-- A `documents` row as inserted by the upload handler. -/
structure DocRow where
  id : Nat
  filename : String
  original_name : String
  deriving DecidableEq

/-- A `chunks` row as built by the upload handler (`src/app.js` lines
276-281); `embedding` is `none` when `embeddings[index]` is out of range
(JavaScript `undefined`). -/
structure ChunkRow (α : Type) where
  document_id : Nat
  chunk_index : Nat
  content : List Char
  embedding : Option α
  deriving DecidableEq

/-- The two tables written by the ingestion path. -/
structure Db (α : Type) where
  documents : List DocRow
  chunks : List (ChunkRow α)
  deriving DecidableEq

/-- External-call outcomes for one `/api/upload` request.  `docInsert` is the
outcome of the document insert (the fresh row id on success), and
`chunksInsertError`/`unlinkError` are the messages of those two calls when
they fail. -/
structure UploadEnv (α : Type) where
  file : Option FileMeta
  parseResult : Except String (List Char)
  embedSvc : List Char → Except String α
  docInsert : Except String Nat
  chunksInsertError : Option String
  unlinkError : Option String

/-- Response body of `/api/upload`: the 400 no-file body, the success
payload (document id, chunk count), or an error body with a message. -/
inductive UploadBody where
  | noFile : UploadBody
  | success : Nat → Nat → UploadBody
  | err : String → UploadBody
  deriving DecidableEq

/-- Result of one `/api/upload` request: HTTP status, body, database
contents afterwards, and the number of `fs.unlink` attempts made. -/
structure UploadResult (α : Type) where
  status : Nat
  body : UploadBody
  db : Db α
  unlinkAttempts : Nat

/-- The `/api/upload` handler (`src/app.js` lines 246-310).  On the success
path the `unlink` at line 290 sits inside the `try`, so when it throws the
`catch` block attempts a second `unlink` (whose own failure is swallowed by
`.catch(console.error)`) and responds 500 with the unlink error message. -/
def uploadHandler {α : Type} (env : UploadEnv α) (db : Db α) : UploadResult α :=
  match env.file with
  | none => ⟨400, UploadBody.noFile, db, 0⟩
  | some fm =>
    match env.parseResult with
    | Except.error e => ⟨500, UploadBody.err e, db, 1⟩
    | Except.ok text =>
      let chunks := chunkText text
      match getEmbeddings env.embedSvc chunks with
      | Except.error e => ⟨500, UploadBody.err e, db, 1⟩
      | Except.ok embeddings =>
        match env.docInsert with
        | Except.error e =>
          ⟨500, UploadBody.err ("Error inserting document: " ++ e), db, 1⟩
        | Except.ok docId =>
          let db1 : Db α := ⟨db.documents ++ [⟨docId, fm.filename, fm.originalname⟩], db.chunks⟩
          let rows := chunks.enum.map fun p =>
            ChunkRow.mk docId p.1 p.2 (embeddings.get? p.1)
          match env.chunksInsertError with
          | some e =>
            ⟨500, UploadBody.err ("Error inserting chunks: " ++ e), db1, 1⟩
          | none =>
            let db2 : Db α := ⟨db1.documents, db1.chunks ++ rows⟩
            match env.unlinkError with
            | some e => ⟨500, UploadBody.err e, db2, 2⟩
            | none => ⟨200, UploadBody.success docId chunks.length, db2, 1⟩

/-- The fixed no-context answer (`src/app.js` lines 329 and 373). -/
def noInfoAnswer : String :=
  "I don\x27t have any relevant information to answer this question."

/-- External-call outcomes for one `/api/ask` request.  `searchResult`
distinguishes a thrown error, a `null` data row set, and a list of hits. -/
structure AskEnv (ε σ : Type) where
  question : Option String
  embedResult : Except String ε
  searchResult : Except String (Option (List (ChunkHit σ)))
  genResult : Except String String

/-- Response body of `/api/ask`. -/
inductive AskBody (σ : Type) where
  | missingQuestion : AskBody σ
  | answer : String → List (String × σ) → AskBody σ
  | err : String → AskBody σ
  deriving DecidableEq

/-- Result of one `/api/ask` request: HTTP status, body, and whether
`generateResponse` was invoked. -/
structure AskResult (σ : Type) where
  status : Nat
  body : AskBody σ
  genCalled : Bool
  deriving DecidableEq

/-- The `/api/ask` handler (`src/app.js` lines 313-349).  JavaScript
`!question` is true for a missing or empty question. -/
def askHandler {ε σ : Type} (env : AskEnv ε σ) : AskResult σ :=
  match env.question with
  | none => ⟨400, AskBody.missingQuestion, false⟩
  | some q =>
    if q = "" then ⟨400, AskBody.missingQuestion, false⟩
    else
      match env.embedResult with
      | Except.error e => ⟨500, AskBody.err e, false⟩
      | Except.ok _ =>
        match env.searchResult with
        | Except.error e => ⟨500, AskBody.err e, false⟩
        | Except.ok none => ⟨200, AskBody.answer noInfoAnswer [], false⟩
        | Except.ok (some hits) =>
          if hits.isEmpty then ⟨200, AskBody.answer noInfoAnswer [], false⟩
          else
            match env.genResult with
            | Except.error e => ⟨500, AskBody.err e, true⟩
            | Except.ok ans =>
              ⟨200, AskBody.answer ans (hits.map fun h => (h.content, h.similarity)), true⟩

/-- Response of the Slack endpoint: HTTP status plus the Slack message
payload (`response_type`, `text`). -/
structure SlackResponse where
  status : Nat
  response_type : String
  text : String
  deriving DecidableEq

/-- External-call outcomes for one `/api/slack/ask` request. -/
structure SlackEnv (ε σ : Type) where
  text : Option String
  embedResult : Except String ε
  searchResult : Except String (Option (List (ChunkHit σ)))
  genResult : Except String String

/-- The `/api/slack/ask` handler (`src/app.js` lines 352-393).  Every
`res.send` responds with HTTP status 200; the `catch` block turns any thrown
pipeline error into an `ephemeral` message `Error: <message>`. -/
def slackHandler {ε σ : Type} (env : SlackEnv ε σ) : SlackResponse :=
  match env.text with
  | none => ⟨200, "ephemeral", "Please provide a question after the slash command."⟩
  | some t =>
    if t = "" then ⟨200, "ephemeral", "Please provide a question after the slash command."⟩
    else
      match env.embedResult with
      | Except.error e => ⟨200, "ephemeral", "Error: " ++ e⟩
      | Except.ok _ =>
        match env.searchResult with
        | Except.error e => ⟨200, "ephemeral", "Error: " ++ e⟩
        | Except.ok none => ⟨200, "in_channel", noInfoAnswer⟩
        | Except.ok (some hits) =>
          if hits.isEmpty then ⟨200, "in_channel", noInfoAnswer⟩
          else
            match env.genResult with
            | Except.error e => ⟨200, "ephemeral", "Error: " ++ e⟩
            | Except.ok ans => ⟨200, "in_channel", ans⟩

/-- One message of the chat-completion request. -/
structure ChatMessage where
  role : String
  content : String
  deriving DecidableEq

/-- The request `generateResponse` sends to the completion service
(`src/app.js` lines 223-237); the floating-point temperature 0.7 is modelled
as the rational 7/10. -/
structure ChatRequest where
  model : String
  messages : List ChatMessage
  temperature : Rat
  max_tokens : Nat

/-- The grounding prompt built by `generateResponse` (lines 214-221):
contexts labelled `[1] …`, `[2] …`, joined by blank lines, then the
question. -/
def buildPrompt (question : String) (contexts : List String) : String :=
  "You are an assistant. Answer the question using only the provided context. If you cannot find the answer in the context, say \"I don\x27t have enough information to answer this question.\"\n\nContext:\n"
    ++ String.intercalate "\n\n"
        (contexts.enum.map fun p => "[" ++ toString (p.1 + 1) ++ "] " ++ p.2)
    ++ "\n\nQuestion: " ++ question ++ "\n\nAnswer:"

/-- The fixed system instruction of `generateResponse` (line 228). -/
def systemInstruction : String :=
  "You are a helpful assistant that answers questions based solely on the provided context. If the context doesn\x27t contain the answer, acknowledge that you don\x27t have enough information."

/-- The full chat-completion request issued by `generateResponse`. -/
def generateRequest (question : String) (contexts : List String) : ChatRequest :=
  ⟨"gpt-4",
   [⟨"system", systemInstruction⟩, ⟨"user", buildPrompt question contexts⟩],
   7 / 10, 500⟩

/-! Helper lemmas about `getEmbeddingsRun`. -/

theorem getEmbeddingsRun_ok {α : Type} (svc : List Char → Except String α)
    (f : List Char → α) :
    ∀ chunks, (∀ c ∈ chunks, svc c = Except.ok (f c)) →
      getEmbeddingsRun svc chunks = (Except.ok (chunks.map f), chunks) := by
  intro chunks
  induction chunks with
  | nil => intro _; rfl
  | cons c cs ih =>
    intro h
    have hc : svc c = Except.ok (f c) := h c (List.mem_cons_self c cs)
    have hcs := ih fun d hd => h d (List.mem_cons_of_mem c hd)
    simp only [getEmbeddingsRun, hc, hcs, List.map_cons]

theorem getEmbeddingsRun_error {α : Type} (svc : List Char → Except String α) :
    ∀ chunks c e, c ∈ chunks → svc c = Except.error e →
      ∃ msg, (getEmbeddingsRun svc chunks).1 = Except.error msg := by
  intro chunks
  induction chunks with
  | nil =>
    intro c e hc
    simp at hc
  | cons d ds ih =>
    intro c e hc hsvc
    rcases List.mem_cons.mp hc with rfl | hcm
    · exact ⟨e, by simp [getEmbeddingsRun, hsvc]⟩
    · cases hd : svc d with
      | error e2 => exact ⟨e2, by simp [getEmbeddingsRun, hd]⟩
      | ok v =>
        obtain ⟨msg, hmsg⟩ := ih c e hcm hsvc
        refine ⟨msg, ?_⟩
        simp only [getEmbeddingsRun, hd]
        rcases hrun : getEmbeddingsRun svc ds with ⟨fst, snd⟩
        rw [hrun] at hmsg
        simp only at hmsg
        rw [hmsg]

/-! The claim theorems about the handlers. -/

/-- C7: the batch embedder consults the embedding service once per chunk,
sequentially in input order; on success the i-th embedding is the embedding
of the i-th chunk; any individual failure aborts the whole batch with an
embedding error, in which case the upload handler persists nothing. -/
theorem getEmbeddings_sequential {α : Type} (svc : List Char → Except String α)
    (f : List Char → α) (chunks : List (List Char)) :
    ((∀ c ∈ chunks, svc c = Except.ok (f c)) →
      getEmbeddings svc chunks = Except.ok (chunks.map f)
      ∧ (getEmbeddingsRun svc chunks).2 = chunks)
    ∧ (∀ c e, c ∈ chunks → svc c = Except.error e →
        ∃ msg, getEmbeddings svc chunks = Except.error msg)
    ∧ (∀ (db : Db α) (env : UploadEnv α) (fm : FileMeta) (txt : List Char) (msg : String),
        env.file = some fm → env.parseResult = Except.ok txt →
        getEmbeddings env.embedSvc (chunkText txt) = Except.error msg →
        (uploadHandler env db).db = db ∧ (uploadHandler env db).status = 500) := by
  refine ⟨?_, ?_, ?_⟩
  · intro h
    have hrun := getEmbeddingsRun_ok svc f chunks h
    constructor
    · simp [getEmbeddings, hrun]
    · rw [hrun]
  · intro c e hc hsvc
    obtain ⟨msg, hmsg⟩ := getEmbeddingsRun_error svc chunks c e hc hsvc
    exact ⟨"Error generating embeddings: " ++ msg, by simp [getEmbeddings, hmsg]⟩
  · intro db env fm txt msg hf hp he
    simp only [uploadHandler, hf, hp, he]
    simp

/-- Witness for C7 at a concrete service and batch. -/
theorem getEmbeddings_sequential_witness :
    getEmbeddings (fun c => Except.ok c.length) [['a'], ['b', 'c']]
      = Except.ok [1, 2] :=
  ((getEmbeddings_sequential (fun c => Except.ok c.length) (fun c => c.length)
    [['a'], ['b', 'c']]).1 (fun _ _ => rfl)).1

/-- A concrete ingestion environment in which only the chunk insert fails. -/
def chunkInsertFailEnv : UploadEnv Nat :=
  ⟨some ⟨"f.txt", "o.txt"⟩, Except.ok ['h', 'i'], fun _ => Except.ok 0,
   Except.ok 7, some "boom", none⟩

/-- C2 (amended): the two-step store is not atomic — when the chunk insert
fails after the document insert succeeded, the handler responds 500 and
still attempts the cleanup, but the Document row remains durably recorded
(orphaned) while no Chunk row is. -/
theorem upload_chunk_insert_failure_keeps_document {α : Type}
    (env : UploadEnv α) (db : Db α) (fm : FileMeta) (txt : List Char)
    (es : List α) (docId : Nat) (e : String)
    (hf : env.file = some fm) (hp : env.parseResult = Except.ok txt)
    (he : getEmbeddings env.embedSvc (chunkText txt) = Except.ok es)
    (hd : env.docInsert = Except.ok docId)
    (hc : env.chunksInsertError = some e) :
    (uploadHandler env db).status = 500
    ∧ (uploadHandler env db).db.documents
        = db.documents ++ [⟨docId, fm.filename, fm.originalname⟩]
    ∧ (uploadHandler env db).db.chunks = db.chunks
    ∧ (uploadHandler env db).unlinkAttempts = 1 := by
  simp only [uploadHandler, hf, hp, he, hd, hc]
  simp

/-- Witness for C2 at a concrete environment. -/
theorem upload_chunk_insert_failure_witness :
    (uploadHandler chunkInsertFailEnv (⟨[], []⟩ : Db Nat)).status = 500 :=
  (upload_chunk_insert_failure_keeps_document chunkInsertFailEnv ⟨[], []⟩
    ⟨"f.txt", "o.txt"⟩ ['h', 'i'] [0] 7 "boom" rfl rfl rfl rfl rfl).1

/-- C2 counterexample: with every stage succeeding except the chunk insert,
the Document row is durably recorded while zero Chunk rows are — the
ingestion is not atomic and an orphaned Document with no chunks remains. -/
theorem upload_not_atomic_cex :
    chunkInsertFailEnv.chunksInsertError.isSome = true
    ∧ (uploadHandler chunkInsertFailEnv (⟨[], []⟩ : Db Nat)).db.documents.length = 1
    ∧ (uploadHandler chunkInsertFailEnv (⟨[], []⟩ : Db Nat)).db.chunks.length = 0
    ∧ (uploadHandler chunkInsertFailEnv (⟨[], []⟩ : Db Nat)).status = 500 := by
  refine ⟨rfl, rfl, rfl, rfl⟩

/-- A concrete ingestion environment in which the whole pipeline succeeds
but the cleanup `fs.unlink` fails. -/
def unlinkFailEnv : UploadEnv Nat :=
  ⟨some ⟨"f.txt", "o.txt"⟩, Except.ok ['h', 'i'], fun _ => Except.ok 0,
   Except.ok 7, none, some "EPERM"⟩

/-- C4 (amended): whenever a file is present the upload handler attempts to
delete the transient upload at least once, on success and failure alike; on
a pipeline failure at any stage — parse, embedding, document insert, chunk
insert — the response carries that stage's error while the deletion failure
is only logged (the body is the pipeline error whatever `unlinkError` is);
but when the whole pipeline succeeds and the deletion itself then fails, the
deletion error is surfaced as the primary error of a 500 response. -/
theorem upload_cleanup {α : Type} (env : UploadEnv α) (db : Db α) (fm : FileMeta)
    (hf : env.file = some fm) :
    1 ≤ (uploadHandler env db).unlinkAttempts
    ∧ (∀ e, env.parseResult = Except.error e →
        (uploadHandler env db).status = 500
        ∧ (uploadHandler env db).body = UploadBody.err e
        ∧ (uploadHandler env db).unlinkAttempts = 1)
    ∧ (∀ txt e, env.parseResult = Except.ok txt →
        getEmbeddings env.embedSvc (chunkText txt) = Except.error e →
        (uploadHandler env db).status = 500
        ∧ (uploadHandler env db).body = UploadBody.err e
        ∧ (uploadHandler env db).unlinkAttempts = 1)
    ∧ (∀ txt es e, env.parseResult = Except.ok txt →
        getEmbeddings env.embedSvc (chunkText txt) = Except.ok es →
        env.docInsert = Except.error e →
        (uploadHandler env db).status = 500
        ∧ (uploadHandler env db).body = UploadBody.err ("Error inserting document: " ++ e)
        ∧ (uploadHandler env db).unlinkAttempts = 1)
    ∧ (∀ txt es docId e, env.parseResult = Except.ok txt →
        getEmbeddings env.embedSvc (chunkText txt) = Except.ok es →
        env.docInsert = Except.ok docId → env.chunksInsertError = some e →
        (uploadHandler env db).status = 500
        ∧ (uploadHandler env db).body = UploadBody.err ("Error inserting chunks: " ++ e)
        ∧ (uploadHandler env db).unlinkAttempts = 1)
    ∧ (∀ txt es docId e, env.parseResult = Except.ok txt →
        getEmbeddings env.embedSvc (chunkText txt) = Except.ok es →
        env.docInsert = Except.ok docId → env.chunksInsertError = none →
        env.unlinkError = some e →
        (uploadHandler env db).status = 500
        ∧ (uploadHandler env db).body = UploadBody.err e
        ∧ (uploadHandler env db).unlinkAttempts = 2) := by
  refine ⟨?_, ?_, ?_, ?_, ?_, ?_⟩
  · unfold uploadHandler
    rw [hf]
    cases env.parseResult with
    | error e => simp
    | ok txt =>
      dsimp only
      cases getEmbeddings env.embedSvc (chunkText txt) with
      | error e => simp
      | ok es =>
        dsimp only
        cases env.docInsert with
        | error e => simp
        | ok docId =>
          dsimp only
          cases env.chunksInsertError with
          | some e => simp
          | none =>
            dsimp only
            cases env.unlinkError with
            | some e => simp
            | none => simp
  · intro e hp
    simp only [uploadHandler, hf, hp]
    simp
  · intro txt e hp he
    simp only [uploadHandler, hf, hp, he]
    simp
  · intro txt es e hp he hd
    simp only [uploadHandler, hf, hp, he, hd]
    simp
  · intro txt es docId e hp he hd hc
    simp only [uploadHandler, hf, hp, he, hd, hc]
    simp
  · intro txt es docId e hp he hd hc hu
    simp only [uploadHandler, hf, hp, he, hd, hc, hu]
    simp

/-- Witness for C4 at a concrete environment. -/
theorem upload_cleanup_witness :
    1 ≤ (uploadHandler unlinkFailEnv (⟨[], []⟩ : Db Nat)).unlinkAttempts :=
  (upload_cleanup unlinkFailEnv ⟨[], []⟩ ⟨"f.txt", "o.txt"⟩ rfl).1

/-- C4 counterexample: when every pipeline stage succeeds but the deletion
of the uploaded file fails, the deletion error becomes the primary error of
the 500 response — it is not merely logged. -/
theorem upload_cleanup_cex :
    unlinkFailEnv.unlinkError = some "EPERM"
    ∧ (uploadHandler unlinkFailEnv (⟨[], []⟩ : Db Nat)).status = 500
    ∧ (uploadHandler unlinkFailEnv (⟨[], []⟩ : Db Nat)).body = UploadBody.err "EPERM" :=
  ⟨rfl, rfl, rfl⟩

/-- C6: whenever the similarity search returns no chunks (a `null` result or
an empty list), `/api/ask` answers 200 with the fixed no-information answer
and an empty chunks list, and the answer generator is not invoked. -/
theorem ask_no_chunks {ε σ : Type} (env : AskEnv ε σ) (q : String) (x : ε)
    (hq : env.question = some q) (hq2 : q ≠ "")
    (he : env.embedResult = Except.ok x)
    (hs : env.searchResult = Except.ok none ∨ env.searchResult = Except.ok (some [])) :
    askHandler env = ⟨200, AskBody.answer noInfoAnswer [], false⟩ := by
  rcases hs with hs | hs <;>
    simp [askHandler, hq, he, hs, if_neg hq2]

/-- Witness for C6 at a concrete environment. -/
theorem ask_no_chunks_witness :
    askHandler (⟨some "q", Except.ok 0, Except.ok (some []), Except.ok "a"⟩ :
        AskEnv Nat Nat)
      = ⟨200, AskBody.answer noInfoAnswer [], false⟩ :=
  ask_no_chunks _ "q" 0 rfl (by decide) rfl (Or.inr rfl)

theorem errPrefixData (e : String) : "Error:".data <+: ("Error: " ++ e).data := by
  have h0 : ("Error: " : String) = "Error:" ++ " " := by decide
  have h1 : "Error: " ++ e = "Error:" ++ (" " ++ e) := by
    rw [h0, String.append_assoc]
  rw [h1]
  exact ⟨(" " ++ e).data, by simp⟩

/-- C5: the Slack endpoint always answers HTTP 200, and when the pipeline
fails at the embedding, search, or generation stage the body is an
`ephemeral` message whose text is `Error: ` followed by the thrown message —
in particular it contains (starts with) `Error:`. -/
theorem slack_always_200 {ε σ : Type} (env : SlackEnv ε σ) :
    (slackHandler env).status = 200
    ∧ (∀ t e, env.text = some t → t ≠ "" → env.embedResult = Except.error e →
        slackHandler env = ⟨200, "ephemeral", "Error: " ++ e⟩
        ∧ "Error:".data <+: (slackHandler env).text.data)
    ∧ (∀ t x e, env.text = some t → t ≠ "" → env.embedResult = Except.ok x →
        env.searchResult = Except.error e →
        slackHandler env = ⟨200, "ephemeral", "Error: " ++ e⟩
        ∧ "Error:".data <+: (slackHandler env).text.data)
    ∧ (∀ t x hits e, env.text = some t → t ≠ "" → env.embedResult = Except.ok x →
        env.searchResult = Except.ok (some hits) → hits ≠ [] →
        env.genResult = Except.error e →
        slackHandler env = ⟨200, "ephemeral", "Error: " ++ e⟩
        ∧ "Error:".data <+: (slackHandler env).text.data) := by
  refine ⟨?_, ?_, ?_, ?_⟩
  · unfold slackHandler
    cases env.text with
    | none => rfl
    | some t =>
      dsimp only
      split_ifs
      · rfl
      · cases env.embedResult with
        | error e => rfl
        | ok x =>
          cases env.searchResult with
          | error e => rfl
          | ok o =>
            cases o with
            | none => rfl
            | some hits =>
              dsimp only
              split_ifs
              · rfl
              · cases env.genResult with
                | error e => rfl
                | ok a => rfl
  · intro t e ht ht2 hemb
    have hval : slackHandler env = ⟨200, "ephemeral", "Error: " ++ e⟩ := by
      simp [slackHandler, ht, hemb, if_neg ht2]
    exact ⟨hval, by rw [hval]; exact errPrefixData e⟩
  · intro t x e ht ht2 hemb hsearch
    have hval : slackHandler env = ⟨200, "ephemeral", "Error: " ++ e⟩ := by
      simp [slackHandler, ht, hemb, hsearch, if_neg ht2]
    exact ⟨hval, by rw [hval]; exact errPrefixData e⟩
  · intro t x hits e ht ht2 hemb hsearch hne hgen
    have hval : slackHandler env = ⟨200, "ephemeral", "Error: " ++ e⟩ := by
      simp [slackHandler, ht, hemb, hsearch, hgen, if_neg ht2,
        List.isEmpty_eq_false.mpr hne]
    exact ⟨hval, by rw [hval]; exact errPrefixData e⟩

/-- Witness for C5 at a concrete environment. -/
theorem slack_always_200_witness :
    slackHandler (⟨some "q", Except.error "boom", Except.ok none, Except.ok "a"⟩ :
        SlackEnv Nat Nat)
      = ⟨200, "ephemeral", "Error: boom"⟩ :=
  ((slack_always_200 _).2.1 "q" "boom" rfl (by decide) rfl).1

/-- C9: `generateResponse` always calls the completion service with the same
fixed sampling parameters — temperature 0.7 (7/10) and a 500-token output
cap — independent of the question and the retrieved contexts. -/
theorem generateRequest_fixed_params (q r : String) (cs ds : List String) :
    (generateRequest q cs).temperature = 7 / 10
    ∧ (generateRequest q cs).max_tokens = 500
    ∧ (generateRequest q cs).temperature = (generateRequest r ds).temperature
    ∧ (generateRequest q cs).max_tokens = (generateRequest r ds).max_tokens :=
  ⟨rfl, rfl, rfl, rfl⟩

end SlackBot
